import Mathlib

/-!
Verification of the resume-tailorer backend (src/backend/app.py) against its
specification.  Strings are modelled as `List Char`; Python floats used by the
layout analyzer and the optimization loop appear only in comparisons and one
guarded division, so they are modelled by exact rationals (`ℚ`).  Fallible
functions (Python `raise`) return `Option`.
-/

set_option maxRecDepth 4000

/-! ## String primitives (Python `str` operations used by the extractor) -/

/-- Whitespace as recognized by Python `str.strip` and the regex class
backslash-s (ASCII range; the Unicode extras never occur in the claims). -/
def isPySpace (c : Char) : Bool :=
  c = ' ' || c = '\t' || c = '\n' || c = '\r' || c = '\x0b' || c = '\x0c'

/-- Python `str.strip()`: drop leading and trailing whitespace. -/
def stripChars (s : List Char) : List Char :=
  ((s.dropWhile isPySpace).reverse.dropWhile isPySpace).reverse

/-- Case-insensitive character comparison (regex IGNORECASE). -/
def ciEq (a b : Char) : Bool := a.toLower = b.toLower

/-- Case-insensitive prefix test. -/
def ciPrefixOf : List Char → List Char → Bool
  | [], _ => true
  | _ :: _, [] => false
  | a :: as, b :: bs => ciEq a b && ciPrefixOf as bs

/-- Python `s.find(pat)` followed by slicing: split `s` at the first
occurrence of `pat`, returning the part before the match and the suffix
starting with the match; `none` when `pat` does not occur. -/
def splitAtSub (pat : List Char) : List Char → Option (List Char × List Char)
  | [] => if pat.isPrefixOf ([] : List Char) then some ([], []) else none
  | c :: rest =>
    if pat.isPrefixOf (c :: rest) then some ([], c :: rest)
    else
      match splitAtSub pat rest with
      | some (pre, suf) => some (c :: pre, suf)
      | none => none

/-- Python's `pat in s` substring test. -/
def containsSub (pat s : List Char) : Bool := (splitAtSub pat s).isSome

/-- Case-insensitive variant of `splitAtSub` (regex search with IGNORECASE). -/
def splitAtSubCI (pat : List Char) : List Char → Option (List Char × List Char)
  | [] => if ciPrefixOf pat ([] : List Char) then some ([], []) else none
  | c :: rest =>
    if ciPrefixOf pat (c :: rest) then some ([], c :: rest)
    else
      match splitAtSubCI pat rest with
      | some (pre, suf) => some (c :: pre, suf)
      | none => none

/-! ## Markers (app.py string constants) -/

def dcMarker : List Char := "\\documentclass".toList

def beginDocMarker : List Char := "\\begin\x7bdocument\x7d".toList

def endDocMarker : List Char := "\\end\x7bdocument\x7d".toList

/-- Three backticks, the markdown code-fence delimiter. -/
def fenceMarker : List Char := "\x60\x60\x60".toList

def latexTag : List Char := "latex".toList

def texTag : List Char := "tex".toList

/-! ## Content Extractor (app.py lines 121-181) -/

/-- Model of `extract_preamble_from_original` (app.py 121-126): everything before the
first occurrence of the body-start marker, or empty when absent. -/
def extract_preamble_from_original (original_tex : List Char) : List Char :=
  match splitAtSub beginDocMarker original_tex with
  | some (pre, _) => pre
  | none => []

/-- The part of a whitespace run strictly after its last newline
(`none` when the run has no newline).  This realizes the greedy
backslash-s-star followed by a mandatory newline in the fence regexes. -/
def afterLastNewline : List Char → Option (List Char)
  | [] => none
  | c :: rest =>
    match afterLastNewline rest with
    | some t => some t
    | none => if c = '\n' then some rest else none

/-- Completion of a tagged fence match: after the opening delimiter and tag,
the regex requires optional whitespace ending in a newline, then lazily
captures up to the next closing delimiter. -/
def fenceTail (rest : List Char) : Option (List Char) :=
  let w := rest.takeWhile isPySpace
  let tail := rest.dropWhile isPySpace
  match afterLastNewline w with
  | none => none
  | some w2 =>
    match splitAtSub fenceMarker (w2 ++ tail) with
    | some (cap, _) => some cap
    | none => none

/-- Leftmost match of a fence pattern with an optional language tag
(regex backtick-backtick-backtick tag backslash-s-star newline lazy-capture
closing-fence, with DOTALL and IGNORECASE): the capture group of the first
position admitting a full match. -/
def searchFenceTagged (tag : List Char) : List Char → Option (List Char)
  | [] => none
  | c :: rest =>
    if fenceMarker.isPrefixOf (c :: rest) &&
        ciPrefixOf tag ((c :: rest).drop fenceMarker.length) then
      match fenceTail ((c :: rest).drop (fenceMarker ++ tag).length) with
      | some cap => some cap
      | none => searchFenceTagged tag rest
    else searchFenceTagged tag rest

/-- Leftmost match of the bare fence pattern (opening fence, lazy capture,
closing fence with no newline requirement): app.py pattern 4. -/
def searchFenceBare : List Char → Option (List Char)
  | [] => none
  | c :: rest =>
    if fenceMarker.isPrefixOf (c :: rest) then
      match splitAtSub fenceMarker ((c :: rest).drop fenceMarker.length) with
      | some (cap, _) => some cap
      | none => searchFenceBare rest
    else searchFenceBare rest

/-- One iteration of the fence-pattern loop body (app.py 145-151): when the
pattern matched, strip the capture and keep it only if it contains a
structural marker. -/
def fenceAttempt (cand : Option (List Char)) : Option (List Char) :=
  match cand with
  | some cap =>
    let e := stripChars cap
    if containsSub dcMarker e || containsSub beginDocMarker e then some e else none
  | none => none

/-- The fence-pattern loop (app.py 138-151): try the four patterns in order;
the first stripped capture containing a structural marker replaces the text,
otherwise the text is kept unchanged. -/
def applyFencePatterns (text : List Char) : List Char :=
  match fenceAttempt (searchFenceTagged latexTag text) with
  | some e => e
  | none =>
    match fenceAttempt (searchFenceTagged texTag text) with
    | some e => e
    | none =>
      match fenceAttempt (searchFenceTagged [] text) with
      | some e => e
      | none =>
        match fenceAttempt (searchFenceBare text) with
        | some e => e
        | none => text

/-- Model of `extract_latex_from_response` (app.py 129-181).  Here `none` models the
raised extraction exception (app.py 179). -/
def extract_latex_from_response (response_text : List Char)
    (original_tex : List Char) : Option (List Char) :=
  let text0 := stripChars response_text
  let text1 := applyFencePatterns text0
  let text2 :=
    match splitAtSub dcMarker text1 with
    | some (_, suf) => suf
    | none =>
      match splitAtSub beginDocMarker text1 with
      | some (_, body) =>
        let preamble := extract_preamble_from_original original_tex
        if preamble.isEmpty then body else preamble ++ body
      | none => text1
  let text3 :=
    match splitAtSubCI endDocMarker text2 with
    | some (pre, suf) => pre ++ suf.take endDocMarker.length
    | none => text2
  if containsSub dcMarker text3 || containsSub beginDocMarker text3 then some text3
  else none

/-- Executable form of "the text ends at its end-of-document marker": the
first case-insensitive occurrence of the end marker is terminal, i.e. the
suffix found by the search is exactly the marker. -/
def endsAtEndMarker (t : List Char) : Bool :=
  match splitAtSubCI endDocMarker t with
  | some (_, b) => b = endDocMarker
  | none => false

/-! ## Layout Analyzer (app.py 184-244) -/

/-- A text block of the rendered first page; the analyzer reads entries 1 and
3 of the block tuple (top and bottom y-coordinates). -/
structure Block where
  y0 : ℚ
  y1 : ℚ
deriving DecidableEq

/-- The geometry of the first rendered page that the analyzer inspects. -/
structure Page where
  page_height : ℚ
  blocks : List Block
deriving DecidableEq

/-- The fold computing `content_top` (app.py 206-212): minimum block top,
seeded with the page height. -/
def contentTop (pg : Page) : ℚ :=
  pg.blocks.foldl (fun acc b => min acc b.y0) pg.page_height

/-- The fold computing `content_bottom` (app.py 207-213): maximum block
bottom, seeded with 0. -/
def contentBottom (pg : Page) : ℚ :=
  pg.blocks.foldl (fun acc b => max acc b.y1) 0

/-- Model of `calculate_fill_ratio` (app.py 184-244).  The argument is the page
geometry the analysis sees, `none` standing for any internal failure
(corrupt artifact, library error), which the surrounding handler turns into
the 0.9 default (app.py 242-244). -/
def calculate_fill_ratio (p : Option Page) : ℚ :=
  match p with
  | none => 9/10
  | some pg =>
    if pg.blocks.isEmpty then 1/2
    else
      let top_margin := contentTop pg
      let bottom_margin : ℚ := 36
      let usable_bottom := pg.page_height - bottom_margin
      let usable_height := usable_bottom - top_margin
      let content_used := contentBottom pg - top_margin
      let fill_ratio :=
        if 0 < usable_height then content_used / usable_height else 9/10
      min (max fill_ratio 0) 1

/-! ## Renderer wrapper (app.py 247-293)

`compile_latex_to_pdf` runs the external compiler and reports the page count
of the produced artifact together with a fill ratio that is computed by
`calculate_fill_ratio` on every successful render, whatever the page count.
The external compiler is abstracted as a function from document sources to
the artifact data the wrapper inspects. -/

/-- What the wrapper reads off the artifact produced by the external
compiler: the page count reported by the PDF reader and the first-page
geometry handed to the layout analyzer (`none` = analysis failure). -/
structure CompiledDoc where
  page_count : Nat
  page : Option Page

/-- The `(page_count, fill_ratio)` pair returned by
`compile_latex_to_pdf` and consumed by the optimization loop. -/
structure RenderResult where
  page_count : Nat
  fill_ratio : ℚ
deriving DecidableEq

/-- Model of `compile_latex_to_pdf` (app.py 247-293) on the happy path, with the
external compiler abstracted by `pdf`: the fill ratio is computed
unconditionally (app.py 281), regardless of the page count. -/
def compile_latex_to_pdf {α : Type} (pdf : α → CompiledDoc) (c : α) : RenderResult :=
  { page_count := (pdf c).page_count
    fill_ratio := calculate_fill_ratio (pdf c).page }

/-! ## Optimization loop (app.py 514-572) -/

/-- The target fill-ratio band (app.py 514-515). -/
def MIN_FILL_RATIO : ℚ := mkRat 88 100

def MAX_FILL_RATIO : ℚ := mkRat 96 100

/-- The correction budget `max_optimization_attempts` (app.py 516). -/
def max_optimization_attempts : Nat := 5

/-- The value stored in `adjustment_type` when a correction is issued. -/
inductive AdjType where
  | shortened
  | expanded
deriving DecidableEq

/-- The EVALUATE decision of one loop iteration: the if/elif chain of
app.py 525-569 applied to the render's page count and fill ratio. -/
inductive Decision where
  | ACCEPT
  | SHORTEN
  | EXPAND
deriving DecidableEq

/-- The decision chain of app.py 525-569: a multi-page render forces
shortening; otherwise an out-of-band fill ratio picks a direction; otherwise
the iteration accepts. -/
def evaluate (page_count : Nat) (fill_ratio : ℚ) : Decision :=
  if 1 < page_count then Decision.SHORTEN
  else if fill_ratio < MIN_FILL_RATIO then Decision.EXPAND
  else if MAX_FILL_RATIO < fill_ratio then Decision.SHORTEN
  else Decision.ACCEPT

/-- What the loop carries out of the `for` statement (app.py 517-569):
the current document source, `adjustment_count`, and `adjustment_type`. -/
structure LoopResult (α : Type) where
  content : α
  adjustment_count : Nat
  adjustment_type : Option AdjType
deriving DecidableEq

/-- The `for attempt in range(max_optimization_attempts + 1)` loop of
app.py 520-569.  `render` abstracts `compile_latex_to_pdf` with
`save_final=False`; `sh`/`ex` abstract `shorten_resume`/`expand_resume`
(which receive the current source and the fill ratio of the render that
triggered the correction).  `fuel` counts the iterations the `range` still
allows, so the loop starts with `fuel = maxA + 1` and `attempt = 0`;
corrections are only issued while `attempt < maxA` (app.py 527, 544, 556),
and every other chosen direction breaks out of the loop. -/
def optimizationLoop {α : Type} (render : α → RenderResult)
    (sh ex : α → ℚ → α) (maxA : Nat) :
    Nat → Nat → α → Nat → Option AdjType → LoopResult α
  | 0, _, c, cnt, ty => ⟨c, cnt, ty⟩
  | fuel + 1, attempt, c, cnt, ty =>
    let r := render c
    match evaluate r.page_count r.fill_ratio with
    | Decision.ACCEPT => ⟨c, cnt, ty⟩
    | Decision.SHORTEN =>
      if attempt < maxA then
        optimizationLoop render sh ex maxA fuel (attempt + 1)
          (sh c r.fill_ratio) (cnt + 1) (some AdjType.shortened)
      else ⟨c, cnt, ty⟩
    | Decision.EXPAND =>
      if attempt < maxA then
        optimizationLoop render sh ex maxA fuel (attempt + 1)
          (ex c r.fill_ratio) (cnt + 1) (some AdjType.expanded)
      else ⟨c, cnt, ty⟩

/-! ## The `/tailor` endpoint state effects (app.py 414-593) -/

/-- The persistent state the tailoring run touches: the in-memory
`current_resume` content (app.py 37-41) and the durable compiled-artifact
folder, keyed by file name (app.py 286-291).  An artifact is identified by
the source that was rendered into it. -/
structure ServerState (α : Type) where
  current_resume_content : α
  compiled : String → Option α

/-- The fields of the JSON payload built at app.py 575-585 that depend on
the optimization run. -/
structure TailorOutput (α : Type) where
  tailored_resume : α
  page_count : Nat
  fill_ratio : ℚ
  was_adjusted : Bool
  adjustment_count : Nat
  adjustment_type : Option AdjType

/-- Model of `tailor_resume` (app.py 414-593) from the point where the first
tailored draft `tailored0` has been extracted from the generative reply
(app.py 504): run the optimization loop, then compile once more with
`save_final=True`, which overwrites the durable artifact named
`stem ++ ".pdf"` (app.py 286-291, 572).  The in-memory `current_resume`
record is read (as prompt material) but never written by this endpoint. -/
def tailor_resume {α : Type} (render : α → RenderResult) (sh ex : α → ℚ → α)
    (st : ServerState α) (stem : String) (tailored0 : α) :
    ServerState α × TailorOutput α :=
  let res := optimizationLoop render sh ex max_optimization_attempts
    (max_optimization_attempts + 1) 0 tailored0 0 none
  let final := render res.content
  let st' : ServerState α :=
    { current_resume_content := st.current_resume_content
      compiled := fun n =>
        if n = stem ++ ".pdf" then some res.content else st.compiled n }
  (st',
    { tailored_resume := res.content
      page_count := final.page_count
      fill_ratio := final.fill_ratio
      was_adjusted := decide (0 < res.adjustment_count)
      adjustment_count := res.adjustment_count
      adjustment_type := res.adjustment_type })

/-! ## Lemmas about the string primitives -/

theorem splitAtSub_self {pat s : List Char} (h : pat.isPrefixOf s = true) :
    splitAtSub pat s = some ([], s) := by
  cases s with
  | nil => simp [splitAtSub, h]
  | cons c rest => simp [splitAtSub, h]

theorem splitAtSub_sound {pat s a b : List Char} (h : splitAtSub pat s = some (a, b)) :
    s = a ++ b ∧ pat.isPrefixOf b = true := by
  induction s generalizing a b with
  | nil =>
    by_cases hp : pat.isPrefixOf ([] : List Char) = true
    · simp [splitAtSub, hp] at h
      obtain ⟨ha, hb⟩ := h
      subst ha; subst hb
      exact ⟨rfl, hp⟩
    · simp [splitAtSub, hp] at h
  | cons c rest ih =>
    by_cases hp : pat.isPrefixOf (c :: rest) = true
    · simp [splitAtSub, hp] at h
      obtain ⟨ha, hb⟩ := h
      subst ha; subst hb
      exact ⟨rfl, hp⟩
    · simp only [splitAtSub, hp, Bool.false_eq_true, if_false] at h
      cases hsp : splitAtSub pat rest with
      | none => rw [hsp] at h; simp at h
      | some pr =>
        obtain ⟨pre, suf⟩ := pr
        rw [hsp] at h
        simp at h
        obtain ⟨ha, hb⟩ := h
        obtain ⟨hr, hps⟩ := ih hsp
        subst ha; subst hb
        exact ⟨by rw [List.cons_append, ← hr], hps⟩

theorem splitAtSub_isSome {pat a b : List Char} (hp : pat.isPrefixOf b = true) :
    (splitAtSub pat (a ++ b)).isSome = true := by
  induction a with
  | nil => rw [List.nil_append, splitAtSub_self hp]; rfl
  | cons c a' ih =>
    rw [List.cons_append]
    by_cases hc : pat.isPrefixOf (c :: (a' ++ b)) = true
    · rw [splitAtSub_self hc]; rfl
    · simp only [splitAtSub, hc, Bool.false_eq_true, if_false]
      cases hsp : splitAtSub pat (a' ++ b) with
      | none => rw [hsp] at ih; simp at ih
      | some pr => obtain ⟨pre, suf⟩ := pr; rfl

theorem containsSub_iff_occurs {pat s : List Char} :
    containsSub pat s = true ↔ pat <:+: s := by
  constructor
  · intro h
    unfold containsSub at h
    cases hsp : splitAtSub pat s with
    | none => rw [hsp] at h; simp at h
    | some pr =>
      obtain ⟨a, b⟩ := pr
      obtain ⟨hs, hp⟩ := splitAtSub_sound hsp
      obtain ⟨t, ht⟩ := List.isPrefixOf_iff_prefix.mp hp
      exact ⟨a, t, by rw [hs, ← ht, List.append_assoc]⟩
  · rintro ⟨u, v, huv⟩
    unfold containsSub
    have : (splitAtSub pat (u ++ (pat ++ v))).isSome = true :=
      splitAtSub_isSome ( List.isPrefixOf_iff_prefix.mpr ⟨v, rfl⟩)
    rwa [← List.append_assoc, huv] at this

theorem containsSub_eq_false_mono {pat t s : List Char} (hts : t <:+: s)
    (h : containsSub pat s = false) : containsSub pat t = false := by
  by_contra hc
  have ht : containsSub pat t = true := by
    cases hcv : containsSub pat t with
    | false => exact absurd hcv hc
    | true => rfl
  have : containsSub pat s = true :=
    containsSub_iff_occurs.mpr ((containsSub_iff_occurs.mp ht).trans hts)
  rw [this] at h
  exact Bool.noConfusion h

theorem splitAtSub_eq_none {pat s : List Char} (h : containsSub pat s = false) :
    splitAtSub pat s = none := by
  unfold containsSub at h
  cases hx : splitAtSub pat s with
  | none => rfl
  | some v => rw [hx] at h; simp at h

theorem ciPrefixOf_refl (pat : List Char) : ciPrefixOf pat pat = true := by
  induction pat with
  | nil => rfl
  | cons c cs ih => simp [ciPrefixOf, ciEq, ih]

theorem splitAtSubCI_sound {pat s a b : List Char}
    (h : splitAtSubCI pat s = some (a, b)) :
    s = a ++ b ∧ ciPrefixOf pat b = true := by
  induction s generalizing a b with
  | nil =>
    by_cases hp : ciPrefixOf pat ([] : List Char) = true
    · simp [splitAtSubCI, hp] at h
      obtain ⟨ha, hb⟩ := h
      subst ha; subst hb
      exact ⟨rfl, hp⟩
    · simp [splitAtSubCI, hp] at h
  | cons c rest ih =>
    by_cases hp : ciPrefixOf pat (c :: rest) = true
    · simp [splitAtSubCI, hp] at h
      obtain ⟨ha, hb⟩ := h
      subst ha; subst hb
      exact ⟨rfl, hp⟩
    · simp only [splitAtSubCI, hp, Bool.false_eq_true, if_false] at h
      cases hsp : splitAtSubCI pat rest with
      | none => rw [hsp] at h; simp at h
      | some pr =>
        obtain ⟨pre, suf⟩ := pr
        rw [hsp] at h
        simp at h
        obtain ⟨ha, hb⟩ := h
        obtain ⟨hr, hps⟩ := ih hsp
        subst ha; subst hb
        exact ⟨by rw [List.cons_append, ← hr], hps⟩

theorem endsAtEndMarker_spec {t : List Char} (h : endsAtEndMarker t = true) :
    ∃ p, splitAtSubCI endDocMarker t = some (p, endDocMarker) ∧
      t = p ++ endDocMarker := by
  unfold endsAtEndMarker at h
  cases hsp : splitAtSubCI endDocMarker t with
  | none => rw [hsp] at h; simp at h
  | some pr =>
    obtain ⟨p, b⟩ := pr
    rw [hsp] at h
    simp only [decide_eq_true_eq] at h
    subst h
    exact ⟨p, rfl, (splitAtSubCI_sound hsp).1⟩

theorem stripChars_isInfix (s : List Char) : stripChars s <:+: s := by
  unfold stripChars
  have h1 : s.dropWhile isPySpace <:+ s := List.dropWhile_suffix _
  have h2 : (s.dropWhile isPySpace).reverse.dropWhile isPySpace <:+
      (s.dropWhile isPySpace).reverse := List.dropWhile_suffix _
  have h3 := List.reverse_prefix.mpr h2
  rw [List.reverse_reverse] at h3
  exact h3.isInfix.trans h1.isInfix

/-! ## Lemmas about the fence-pattern step -/

theorem afterLastNewline_suffix {w t : List Char} (h : afterLastNewline w = some t) :
    t <:+ w := by
  induction w with
  | nil => simp [afterLastNewline] at h
  | cons c rest ih =>
    simp only [afterLastNewline] at h
    cases hr : afterLastNewline rest with
    | some u =>
      rw [hr] at h
      simp at h
      subst h
      exact (ih hr).trans (List.suffix_cons c rest)
    | none =>
      rw [hr] at h
      by_cases hc : c = '\n'
      · simp [hc] at h
        subst h
        exact List.suffix_cons c rest
      · simp [hc] at h

theorem fenceTail_isInfix {rest cap : List Char} (h : fenceTail rest = some cap) :
    cap <:+: rest := by
  simp only [fenceTail] at h
  cases haln : afterLastNewline (rest.takeWhile isPySpace) with
  | none => rw [haln] at h; simp at h
  | some w2 =>
    rw [haln] at h
    dsimp only at h
    cases hsp : splitAtSub fenceMarker (w2 ++ rest.dropWhile isPySpace) with
    | none => rw [hsp] at h; simp at h
    | some pr =>
      obtain ⟨cap', r⟩ := pr
      rw [hsp] at h
      simp at h
      rw [← h]
      have h1 : cap' <+: w2 ++ rest.dropWhile isPySpace := by
        obtain ⟨he, _⟩ := splitAtSub_sound hsp
        exact ⟨r, he.symm⟩
      have h2 : w2 <:+ rest.takeWhile isPySpace := afterLastNewline_suffix haln
      obtain ⟨u, hu⟩ := h2
      have h3 : w2 ++ rest.dropWhile isPySpace <:+ rest := by
        refine ⟨u, ?_⟩
        rw [← List.append_assoc, hu, List.takeWhile_append_dropWhile]
      exact h1.isInfix.trans h3.isInfix

theorem searchFenceTagged_isInfix {tag s cap : List Char}
    (h : searchFenceTagged tag s = some cap) : cap <:+: s := by
  induction s with
  | nil => simp [searchFenceTagged] at h
  | cons c rest ih =>
    rw [searchFenceTagged] at h
    by_cases hc : (fenceMarker.isPrefixOf (c :: rest) &&
        ciPrefixOf tag ((c :: rest).drop fenceMarker.length)) = true
    · rw [if_pos hc] at h
      cases hft : fenceTail ((c :: rest).drop (fenceMarker ++ tag).length) with
      | none =>
        rw [hft] at h
        exact (ih h).trans (List.suffix_cons c rest).isInfix
      | some cap' =>
        rw [hft] at h
        simp at h
        subst h
        exact (fenceTail_isInfix hft).trans (List.drop_suffix _ _).isInfix
    · rw [if_neg hc] at h
      exact (ih h).trans (List.suffix_cons c rest).isInfix

theorem searchFenceBare_isInfix {s cap : List Char}
    (h : searchFenceBare s = some cap) : cap <:+: s := by
  induction s with
  | nil => simp [searchFenceBare] at h
  | cons c rest ih =>
    rw [searchFenceBare] at h
    by_cases hc : fenceMarker.isPrefixOf (c :: rest) = true
    · rw [if_pos hc] at h
      cases hsp : splitAtSub fenceMarker ((c :: rest).drop fenceMarker.length) with
      | none =>
        rw [hsp] at h
        exact (ih h).trans (List.suffix_cons c rest).isInfix
      | some pr =>
        obtain ⟨cap', r⟩ := pr
        rw [hsp] at h
        simp at h
        rw [← h]
        obtain ⟨he, _⟩ := splitAtSub_sound hsp
        exact (List.IsPrefix.isInfix ⟨r, he.symm⟩).trans (List.drop_suffix _ _).isInfix
    · rw [if_neg hc] at h
      exact (ih h).trans (List.suffix_cons c rest).isInfix

theorem searchFenceTagged_eq_none {tag s : List Char}
    (h : containsSub fenceMarker s = false) : searchFenceTagged tag s = none := by
  induction s with
  | nil => rfl
  | cons c rest ih =>
    have hrest : containsSub fenceMarker rest = false :=
      containsSub_eq_false_mono (List.suffix_cons c rest).isInfix h
    have hne : ¬ fenceMarker.isPrefixOf (c :: rest) = true := by
      intro hp
      have : containsSub fenceMarker (c :: rest) = true :=
        containsSub_iff_occurs.mpr ( List.isPrefixOf_iff_prefix.mp hp).isInfix
      rw [this] at h
      exact Bool.noConfusion h
    rw [searchFenceTagged]
    simp only [Bool.not_eq_true] at hne
    simp [hne, ih hrest]

theorem searchFenceBare_eq_none {s : List Char}
    (h : containsSub fenceMarker s = false) : searchFenceBare s = none := by
  induction s with
  | nil => rfl
  | cons c rest ih =>
    have hrest : containsSub fenceMarker rest = false :=
      containsSub_eq_false_mono (List.suffix_cons c rest).isInfix h
    have hne : ¬ fenceMarker.isPrefixOf (c :: rest) = true := by
      intro hp
      have : containsSub fenceMarker (c :: rest) = true :=
        containsSub_iff_occurs.mpr ( List.isPrefixOf_iff_prefix.mp hp).isInfix
      rw [this] at h
      exact Bool.noConfusion h
    rw [searchFenceBare]
    simp only [Bool.not_eq_true] at hne
    simp [hne, ih hrest]

theorem fenceAttempt_eq_none {s : List Char} {cand : Option (List Char)}
    (hsub : ∀ cap, cand = some cap → cap <:+: s)
    (hdc : containsSub dcMarker s = false)
    (hbd : containsSub beginDocMarker s = false) :
    fenceAttempt cand = none := by
  cases cand with
  | none => rfl
  | some cap =>
    have hinf : stripChars cap <:+: s := (stripChars_isInfix cap).trans (hsub cap rfl)
    unfold fenceAttempt
    simp [containsSub_eq_false_mono hinf hdc, containsSub_eq_false_mono hinf hbd]

theorem applyFencePatterns_eq_self_of_noMarker {t : List Char}
    (hdc : containsSub dcMarker t = false)
    (hbd : containsSub beginDocMarker t = false) :
    applyFencePatterns t = t := by
  have h1 : fenceAttempt (searchFenceTagged latexTag t) = none :=
    fenceAttempt_eq_none (fun _ hc => searchFenceTagged_isInfix hc) hdc hbd
  have h2 : fenceAttempt (searchFenceTagged texTag t) = none :=
    fenceAttempt_eq_none (fun _ hc => searchFenceTagged_isInfix hc) hdc hbd
  have h3 : fenceAttempt (searchFenceTagged [] t) = none :=
    fenceAttempt_eq_none (fun _ hc => searchFenceTagged_isInfix hc) hdc hbd
  have h4 : fenceAttempt (searchFenceBare t) = none :=
    fenceAttempt_eq_none (fun _ hc => searchFenceBare_isInfix hc) hdc hbd
  unfold applyFencePatterns
  rw [h1, h2, h3, h4]

theorem applyFencePatterns_eq_self_of_noFence {t : List Char}
    (h : containsSub fenceMarker t = false) : applyFencePatterns t = t := by
  unfold applyFencePatterns
  rw [searchFenceTagged_eq_none h, searchFenceTagged_eq_none h,
    searchFenceTagged_eq_none h, searchFenceBare_eq_none h]
  rfl

/-! ## Claims about the Content Extractor -/

/-- C8: for every reply containing neither the structural start marker nor
the body-start marker (hence neither inside any fence content, which is a
substring of the reply), `extract_latex_from_response` raises an
ExtractionError (modelled as `none`) instead of returning a value. -/
theorem c8_extraction_failure (reply original : List Char)
    (hdc : containsSub dcMarker reply = false)
    (hbd : containsSub beginDocMarker reply = false) :
    extract_latex_from_response reply original = none := by
  have hs := stripChars_isInfix reply
  have hdc0 : containsSub dcMarker (stripChars reply) = false :=
    containsSub_eq_false_mono hs hdc
  have hbd0 : containsSub beginDocMarker (stripChars reply) = false :=
    containsSub_eq_false_mono hs hbd
  simp only [extract_latex_from_response,
    applyFencePatterns_eq_self_of_noMarker hdc0 hbd0,
    splitAtSub_eq_none hdc0, splitAtSub_eq_none hbd0]
  cases hci : splitAtSubCI endDocMarker (stripChars reply) with
  | none => simp [hdc0, hbd0]
  | some pr =>
    obtain ⟨pre, suf⟩ := pr
    have htr : pre ++ suf.take endDocMarker.length <+: stripChars reply := by
      obtain ⟨ht, _⟩ := splitAtSubCI_sound hci
      rw [ht]
      exact ⟨suf.drop endDocMarker.length,
        by rw [List.append_assoc, List.take_append_drop]⟩
    have h3 : containsSub dcMarker (pre ++ suf.take endDocMarker.length) = false :=
      containsSub_eq_false_mono htr.isInfix hdc0
    have h4 : containsSub beginDocMarker (pre ++ suf.take endDocMarker.length) = false :=
      containsSub_eq_false_mono htr.isInfix hbd0
    simp [h3, h4]

theorem c8_witness :
    containsSub dcMarker "no markers in this reply at all".toList = false ∧
    containsSub beginDocMarker "no markers in this reply at all".toList = false ∧
    extract_latex_from_response "no markers in this reply at all".toList "x".toList = none :=
  ⟨by decide, by decide,
    c8_extraction_failure _ _ (by decide) (by decide)⟩

/-- C6 (amended): for a reply without code fences whose trimmed form begins
with the structural start marker and whose first case-insensitive occurrence
of the end-of-document marker is terminal, `extract_latex_from_response`
returns the whitespace-trimmed reply, for every reference source; the
original claim's "returns the reply unchanged" holds only when the reply
carries no surrounding whitespace. -/
theorem c6_round_trip (reply original : List Char)
    (hf : containsSub fenceMarker reply = false)
    (hdc : dcMarker.isPrefixOf (stripChars reply) = true)
    (hend : endsAtEndMarker (stripChars reply) = true) :
    extract_latex_from_response reply original = some (stripChars reply) := by
  have hf0 : containsSub fenceMarker (stripChars reply) = false :=
    containsSub_eq_false_mono (stripChars_isInfix reply) hf
  obtain ⟨p, hsp, hpe⟩ := endsAtEndMarker_spec hend
  have hval : containsSub dcMarker (stripChars reply) = true :=
    containsSub_iff_occurs.mpr ( List.isPrefixOf_iff_prefix.mp hdc).isInfix
  simp only [extract_latex_from_response,
    applyFencePatterns_eq_self_of_noFence hf0,
    splitAtSub_self hdc, hsp, List.take_length, ← hpe, hval]
  simp

theorem c6_witness :
    extract_latex_from_response "\\documentclass x \\end\x7bdocument\x7d".toList [] =
      some (stripChars "\\documentclass x \\end\x7bdocument\x7d".toList) :=
  c6_round_trip _ _ (by decide) (by decide) (by decide)

/-- C6 counterexample: a reply carrying one leading blank satisfies every
hypothesis of the claim (after trimming it begins with the structural start
marker, has no fences, and ends at its end marker), yet the extractor does
not return it unchanged — it returns the trimmed form. -/
theorem c6_counterexample :
    containsSub fenceMarker " \\documentclass x \\end\x7bdocument\x7d".toList = false ∧
    dcMarker.isPrefixOf (stripChars " \\documentclass x \\end\x7bdocument\x7d".toList) = true ∧
    endsAtEndMarker (stripChars " \\documentclass x \\end\x7bdocument\x7d".toList) = true ∧
    extract_latex_from_response " \\documentclass x \\end\x7bdocument\x7d".toList [] ≠
      some " \\documentclass x \\end\x7bdocument\x7d".toList := by
  refine ⟨by decide, by decide, by decide, ?_⟩
  decide

/-- C7 (amended): for a reply without code fences that contains the
body-start marker but not the structural start marker, and a reference
source yielding a non-empty preamble, the extractor returns the preamble
spliced in front of the trimmed reply's body — provided the spliced text
ends at its (first case-insensitive) end-of-document marker, since the
extractor truncates everything after that marker.  The result contains the
body-start marker, and contains the structural start marker whenever the
reference preamble does. -/
theorem c7_preamble_fallback (reply original pre0 body : List Char)
    (hf : containsSub fenceMarker reply = false)
    (hdc : containsSub dcMarker reply = false)
    (hsplit : splitAtSub beginDocMarker (stripChars reply) = some (pre0, body))
    (hpre : (extract_preamble_from_original original).isEmpty = false)
    (hend : endsAtEndMarker (extract_preamble_from_original original ++ body) = true) :
    extract_latex_from_response reply original =
      some (extract_preamble_from_original original ++ body) ∧
    containsSub beginDocMarker (extract_preamble_from_original original ++ body) = true ∧
    (containsSub dcMarker (extract_preamble_from_original original) = true →
      containsSub dcMarker (extract_preamble_from_original original ++ body) = true) := by
  have hf0 : containsSub fenceMarker (stripChars reply) = false :=
    containsSub_eq_false_mono (stripChars_isInfix reply) hf
  have hdc0 : containsSub dcMarker (stripChars reply) = false :=
    containsSub_eq_false_mono (stripChars_isInfix reply) hdc
  obtain ⟨p, hsp, hpe⟩ := endsAtEndMarker_spec hend
  have hbdres : containsSub beginDocMarker
      (extract_preamble_from_original original ++ body) = true := by
    have h1 : beginDocMarker <+: body :=
      List.isPrefixOf_iff_prefix.mp (splitAtSub_sound hsplit).2
    exact containsSub_iff_occurs.mpr
      (h1.isInfix.trans (List.suffix_append _ body).isInfix)
  refine ⟨?_, hbdres, ?_⟩
  · simp only [extract_latex_from_response,
      applyFencePatterns_eq_self_of_noFence hf0,
      splitAtSub_eq_none hdc0, hsplit, hpre, List.take_length]
    simp only [Bool.false_eq_true, if_false, hsp, List.take_length, ← hpe, hbdres,
      Bool.or_true, if_true]
  · intro hdcp
    exact containsSub_iff_occurs.mpr
      ((containsSub_iff_occurs.mp hdcp).trans
        ( List.prefix_append (extract_preamble_from_original original) body).isInfix)

theorem c7_witness :
    extract_latex_from_response
      "\\begin\x7bdocument\x7d B \\end\x7bdocument\x7d".toList
      "\\documentclass P \\begin\x7bdocument\x7d x".toList =
      some (extract_preamble_from_original
          "\\documentclass P \\begin\x7bdocument\x7d x".toList ++
        "\\begin\x7bdocument\x7d B \\end\x7bdocument\x7d".toList) ∧
    containsSub beginDocMarker
      (extract_preamble_from_original
          "\\documentclass P \\begin\x7bdocument\x7d x".toList ++
        "\\begin\x7bdocument\x7d B \\end\x7bdocument\x7d".toList) = true ∧
    (containsSub dcMarker (extract_preamble_from_original
        "\\documentclass P \\begin\x7bdocument\x7d x".toList) = true →
      containsSub dcMarker (extract_preamble_from_original
          "\\documentclass P \\begin\x7bdocument\x7d x".toList ++
        "\\begin\x7bdocument\x7d B \\end\x7bdocument\x7d".toList) = true) :=
  c7_preamble_fallback _ _ [] _ (by decide) (by decide) (by decide) (by decide)
    (by decide)

/-- C7 counterexample: a reply with trailing commentary after the
end-of-document marker satisfies the claim's hypotheses (body-start marker
present, no structural start marker, non-empty reference preamble), yet the
result is not `preamble ++ body`: the extractor truncates the body at the
end marker, dropping the trailing text. -/
theorem c7_counterexample :
    containsSub beginDocMarker
      "\\begin\x7bdocument\x7d B \\end\x7bdocument\x7d tail".toList = true ∧
    containsSub dcMarker
      "\\begin\x7bdocument\x7d B \\end\x7bdocument\x7d tail".toList = false ∧
    extract_preamble_from_original
      "\\documentclass P \\begin\x7bdocument\x7d x".toList ≠ [] ∧
    extract_latex_from_response
      "\\begin\x7bdocument\x7d B \\end\x7bdocument\x7d tail".toList
      "\\documentclass P \\begin\x7bdocument\x7d x".toList ≠
      some (extract_preamble_from_original
          "\\documentclass P \\begin\x7bdocument\x7d x".toList ++
        "\\begin\x7bdocument\x7d B \\end\x7bdocument\x7d tail".toList) := by
  refine ⟨by decide, by decide, by decide, ?_⟩
  decide

/-! ## Claims about the optimization loop -/

/-- C1: in every EVALUATE step, a render reporting more than one page makes
the decision SHORTEN — never ACCEPT and never EXPAND — whatever the reported
fill ratio; and while the attempt budget lasts, the iteration issues the
shorten correction and continues. -/
theorem c1_page_violation_shortens {α : Type} (render : α → RenderResult)
    (sh ex : α → ℚ → α) (fuel attempt cnt : Nat) (ty : Option AdjType) (c : α)
    (hpc : 1 < (render c).page_count) :
    evaluate (render c).page_count (render c).fill_ratio = Decision.SHORTEN ∧
    (attempt < max_optimization_attempts →
      optimizationLoop render sh ex max_optimization_attempts (fuel + 1) attempt c cnt ty =
        optimizationLoop render sh ex max_optimization_attempts fuel (attempt + 1)
          (sh c (render c).fill_ratio) (cnt + 1) (some AdjType.shortened)) := by
  have hev : evaluate (render c).page_count (render c).fill_ratio = Decision.SHORTEN := by
    unfold evaluate
    rw [if_pos hpc]
  refine ⟨hev, fun hatt => ?_⟩
  simp only [optimizationLoop]
  rw [hev]
  simp [hatt]

theorem c1_witness :
    evaluate 2 (mkRat 99 100) = Decision.SHORTEN ∧
    (0 < max_optimization_attempts →
      optimizationLoop (fun _ => (⟨2, mkRat 99 100⟩ : RenderResult))
          (fun (_ : ℕ) (_ : ℚ) => 1) (fun c _ => c) max_optimization_attempts
          (5 + 1) 0 9 0 none =
        optimizationLoop (fun _ => (⟨2, mkRat 99 100⟩ : RenderResult))
          (fun (_ : ℕ) (_ : ℚ) => 1) (fun c _ => c) max_optimization_attempts
          5 1 1 1 (some AdjType.shortened)) :=
  c1_page_violation_shortens (fun _ => (⟨2, mkRat 99 100⟩ : RenderResult))
    (fun (_ : ℕ) (_ : ℚ) => 1) (fun c _ => c) 5 0 0 none 9 (by decide)

/-- If no iteration ever evaluates to ACCEPT, the loop spends its whole
correction budget: starting with `attempt + fuel = max_attempts + 1`, it
performs one correction per iteration while `attempt < max_attempts` and
then stops adjusting. -/
theorem optimizationLoop_count_of_no_accept {α : Type} (render : α → RenderResult)
    (sh ex : α → ℚ → α)
    (h : ∀ c, evaluate (render c).page_count (render c).fill_ratio ≠ Decision.ACCEPT) :
    ∀ fuel attempt c cnt ty, attempt + fuel = max_optimization_attempts + 1 →
      (optimizationLoop render sh ex max_optimization_attempts fuel attempt c cnt
        ty).adjustment_count = cnt + (fuel - 1) := by
  intro fuel
  induction fuel with
  | zero =>
    intro attempt c cnt ty _
    simp [optimizationLoop]
  | succ k ih =>
    intro attempt c cnt ty hsum
    simp only [optimizationLoop]
    cases hev : evaluate (render c).page_count (render c).fill_ratio with
    | ACCEPT => exact absurd hev (h c)
    | SHORTEN =>
      dsimp only
      by_cases hatt : attempt < max_optimization_attempts
      · have hk : 1 ≤ k := by
          unfold max_optimization_attempts at hsum hatt
          omega
        rw [if_pos hatt, ih (attempt + 1) _ (cnt + 1) _ (by omega)]
        omega
      · have hk : k = 0 := by
          unfold max_optimization_attempts at hsum hatt
          omega
        rw [if_neg hatt]
        simp [hk]
    | EXPAND =>
      dsimp only
      by_cases hatt : attempt < max_optimization_attempts
      · have hk : 1 ≤ k := by
          unfold max_optimization_attempts at hsum hatt
          omega
        rw [if_pos hatt, ih (attempt + 1) _ (cnt + 1) _ (by omega)]
        omega
      · have hk : k = 0 := by
          unfold max_optimization_attempts at hsum hatt
          omega
        rw [if_neg hatt]
        simp [hk]

/-- C2: when no correction ever brings the render into compliance (page
count above one, or fill ratio outside the [0.88, 0.96] band, on every
iteration), the run performs exactly `max_optimization_attempts = 5`
correction rounds, stops adjusting, and still performs the final render
that overwrites the durable artifact for the document name.  Termination is
unconditional: `tailor_resume` is a total function of its inputs. -/
theorem c2_budget_exhaustion {α : Type} (render : α → RenderResult)
    (sh ex : α → ℚ → α) (st : ServerState α) (stem : String) (t0 : α)
    (h : ∀ c, 1 < (render c).page_count ∨ (render c).fill_ratio < MIN_FILL_RATIO ∨
      MAX_FILL_RATIO < (render c).fill_ratio) :
    (tailor_resume render sh ex st stem t0).2.adjustment_count =
      max_optimization_attempts ∧
    (tailor_resume render sh ex st stem t0).1.compiled (stem ++ ".pdf") =
      some ((tailor_resume render sh ex st stem t0).2.tailored_resume) := by
  have hna : ∀ c, evaluate (render c).page_count (render c).fill_ratio ≠
      Decision.ACCEPT := by
    intro c hacc
    unfold evaluate at hacc
    split_ifs at hacc with h1 h2 h3
    · rcases h c with hx | hx | hx
      · exact h1 hx
      · exact h2 hx
      · exact h3 hx
  have hcount := optimizationLoop_count_of_no_accept render sh ex hna
    (max_optimization_attempts + 1) 0 t0 0 none (by omega)
  constructor
  · simpa [tailor_resume] using hcount
  · simp [tailor_resume]

theorem c2_witness :
    (tailor_resume (fun _ => (⟨2, mkRat 1 2⟩ : RenderResult))
        (fun (_ : ℕ) (_ : ℚ) => 1) (fun c _ => c) ⟨0, fun _ => none⟩ "resume"
        9).2.adjustment_count = max_optimization_attempts ∧
    (tailor_resume (fun _ => (⟨2, mkRat 1 2⟩ : RenderResult))
        (fun (_ : ℕ) (_ : ℚ) => 1) (fun c _ => c) ⟨0, fun _ => none⟩ "resume"
        9).1.compiled ("resume" ++ ".pdf") =
      some ((tailor_resume (fun _ => (⟨2, mkRat 1 2⟩ : RenderResult))
        (fun (_ : ℕ) (_ : ℚ) => 1) (fun c _ => c) ⟨0, fun _ => none⟩ "resume"
        9).2.tailored_resume) :=
  c2_budget_exhaustion (fun _ => (⟨2, mkRat 1 2⟩ : RenderResult))
    (fun (_ : ℕ) (_ : ℚ) => 1) (fun c _ => c) ⟨0, fun _ => none⟩ "resume" 9
    (fun _ => Or.inl (show (1 : ℕ) < 2 from by decide))

/-- C3 (amended): when a render reports more than one page, the loop's
DECISION is independent of that render's fill ratio (it is SHORTEN for every
fill value) — but the fill ratio is still computed on every render
(`compile_latex_to_pdf` calls the analyzer unconditionally) and is passed
into the shorten request the iteration issues, so the correction request is
not independent of it. -/
theorem c3_decision_independent_request_not {α : Type} (render : α → RenderResult)
    (sh ex : α → ℚ → α) (fuel attempt cnt : Nat) (ty : Option AdjType) (c : α)
    (pc : Nat) (f f2 : ℚ) (hpc : 1 < pc) (hr : render c = ⟨pc, f⟩)
    (hatt : attempt < max_optimization_attempts) :
    evaluate pc f = evaluate pc f2 ∧
    (∀ pdf : α → CompiledDoc, (compile_latex_to_pdf pdf c).fill_ratio =
      calculate_fill_ratio (pdf c).page) ∧
    optimizationLoop render sh ex max_optimization_attempts (fuel + 1) attempt c cnt ty =
      optimizationLoop render sh ex max_optimization_attempts fuel (attempt + 1)
        (sh c f) (cnt + 1) (some AdjType.shortened) := by
  have he : ∀ g : ℚ, evaluate pc g = Decision.SHORTEN := fun g => by
    unfold evaluate
    rw [if_pos hpc]
  refine ⟨(he f).trans (he f2).symm, fun _ => rfl, ?_⟩
  simp only [optimizationLoop]
  rw [hr]
  dsimp only
  rw [he f]
  simp [hatt]

theorem c3_witness :
    evaluate 2 (mkRat 1 2) = evaluate 2 (mkRat 99 100) ∧
    (∀ pdf : ℕ → CompiledDoc, (compile_latex_to_pdf pdf 9).fill_ratio =
      calculate_fill_ratio (pdf 9).page) ∧
    optimizationLoop (fun _ => (⟨2, mkRat 1 2⟩ : RenderResult))
        (fun (_ : ℕ) (_ : ℚ) => 1) (fun c _ => c) max_optimization_attempts
        (4 + 1) 0 9 0 none =
      optimizationLoop (fun _ => (⟨2, mkRat 1 2⟩ : RenderResult))
        (fun (_ : ℕ) (_ : ℚ) => 1) (fun c _ => c) max_optimization_attempts
        4 1 1 1 (some AdjType.shortened) :=
  c3_decision_independent_request_not (fun _ => (⟨2, mkRat 1 2⟩ : RenderResult))
    (fun (_ : ℕ) (_ : ℚ) => 1) (fun c _ => c) 4 0 0 none 9 2 (mkRat 1 2)
    (mkRat 99 100) (by decide) rfl (by decide)

/-- C3 counterexample: two runs over identical content whose simulated
renders agree on every page count (always 2) and differ only in the
reported fill ratio produce different results — the shorten request
receives the fill ratio, so what the loop issues is not independent of it. -/
theorem c3_counterexample :
    (optimizationLoop (fun _ => (⟨2, mkRat 1 2⟩ : RenderResult)) (fun _ r => r)
        (fun c _ => c) max_optimization_attempts (max_optimization_attempts + 1) 0
        (mkRat 0 1) 0 none).content ≠
    (optimizationLoop (fun _ => (⟨2, mkRat 99 100⟩ : RenderResult)) (fun _ r => r)
        (fun c _ => c) max_optimization_attempts (max_optimization_attempts + 1) 0
        (mkRat 0 1) 0 none).content := by decide

/-- C4 (amended): the EVALUATE step accepts exactly when the page count is
at most one and the fill ratio lies in the inclusive band
from MIN_FILL_RATIO to MAX_FILL_RATIO inclusive; both endpoints are accepted, and a
first render of (1 page, fill 0.92) makes the loop terminate immediately at
attempt 0 with `adjustment_count = 0`.  The original claim's "exactly when
page_count == 1" fails only for a render reporting zero pages, which the
code also accepts (its hard-violation guard is `page_count > 1`). -/
theorem c4_accept_iff {α : Type} (pc : Nat) (f : ℚ) (sh ex : α → ℚ → α) (c : α) :
    (evaluate pc f = Decision.ACCEPT ↔
      pc ≤ 1 ∧ MIN_FILL_RATIO ≤ f ∧ f ≤ MAX_FILL_RATIO) ∧
    evaluate 1 MIN_FILL_RATIO = Decision.ACCEPT ∧
    evaluate 1 MAX_FILL_RATIO = Decision.ACCEPT ∧
    optimizationLoop (fun _ => (⟨1, mkRat 92 100⟩ : RenderResult)) sh ex
      max_optimization_attempts (max_optimization_attempts + 1) 0 c 0 none =
      ⟨c, 0, none⟩ := by
  refine ⟨?_, by decide, by decide, ?_⟩
  · unfold evaluate
    constructor
    · intro hacc
      split_ifs at hacc with h1 h2 h3
      exact ⟨by omega, le_of_not_lt h2, le_of_not_lt h3⟩
    · rintro ⟨h1, h2, h3⟩
      rw [if_neg (by omega), if_neg (not_lt.mpr h2), if_neg (not_lt.mpr h3)]
  · simp only [optimizationLoop]
    rw [show evaluate 1 (mkRat 92 100) = Decision.ACCEPT from by decide]

/-- C4 counterexample: a simulated render reporting zero pages and fill
ratio 0.92 is ACCEPTed immediately (the loop terminates with no
correction), although its page count is not 1 — refuting "accepts exactly
when page_count == 1". -/
theorem c4_counterexample :
    evaluate 0 (mkRat 92 100) = Decision.ACCEPT ∧
    optimizationLoop (fun _ => (⟨0, mkRat 92 100⟩ : RenderResult))
      (fun (c : ℕ) _ => c + 1) (fun c _ => c + 2) max_optimization_attempts
      (max_optimization_attempts + 1) 0 7 0 none = ⟨7, 0, none⟩ ∧
    (0 : Nat) ≠ 1 := by decide

/-- C5 (amended): at the end of every tailoring run the durable rendered
artifact for the document name is overwritten with the final
accepted/aborted version (and no other artifact entry changes), but the
persisted current DocumentSource is NOT written back: the in-memory
`current_resume` content after the run still equals the pre-run content,
not the tailored source the run ended with. -/
theorem c5_artifact_overwritten_resume_not {α : Type} (render : α → RenderResult)
    (sh ex : α → ℚ → α) (st : ServerState α) (stem : String) (t0 : α) :
    (tailor_resume render sh ex st stem t0).1.current_resume_content =
      st.current_resume_content ∧
    (∀ n, (tailor_resume render sh ex st stem t0).1.compiled n =
      if n = stem ++ ".pdf" then
        some ((tailor_resume render sh ex st stem t0).2.tailored_resume)
      else st.compiled n) :=
  ⟨rfl, fun _ => rfl⟩

/-- C5 counterexample: a run whose first draft (content 1) is immediately
accepted leaves the stored current resume content (0) unchanged, so the
stored content does not equal the tailored source the run ended with. -/
theorem c5_counterexample :
    (tailor_resume (fun _ => (⟨1, mkRat 92 100⟩ : RenderResult))
        (fun (c : ℕ) _ => c) (fun c _ => c) ⟨0, fun _ => none⟩ "resume"
        1).1.current_resume_content ≠
    (tailor_resume (fun _ => (⟨1, mkRat 92 100⟩ : RenderResult))
        (fun (c : ℕ) _ => c) (fun c _ => c) ⟨0, fun _ => none⟩ "resume"
        1).2.tailored_resume := by decide

/-! ## Claims about the Layout Analyzer -/

/-- C9: the analyzer is total and range-bounded — for every input it
returns a value in [0, 1] (it is a total function, so it never raises);
it returns 0.9 when the analysis fails (`none`), 0.5 when the page has no
content blocks, and otherwise the computed ratio clamped to [0, 1]. -/
theorem c9_analyzer_total_bounded (p : Option Page) (pg : Page)
    (hpg : pg.blocks = []) :
    0 ≤ calculate_fill_ratio p ∧ calculate_fill_ratio p ≤ 1 ∧
    calculate_fill_ratio none = 9/10 ∧ calculate_fill_ratio (some pg) = 1/2 := by
  have hb : ∀ q : Option Page, 0 ≤ calculate_fill_ratio q ∧
      calculate_fill_ratio q ≤ 1 := by
    intro q
    cases q with
    | none =>
      norm_num [calculate_fill_ratio]
    | some pg2 =>
      by_cases hq : pg2.blocks.isEmpty
      · norm_num [calculate_fill_ratio, hq]
      · simp only [Bool.not_eq_true] at hq
        constructor
        · simp only [calculate_fill_ratio, hq, Bool.false_eq_true, if_false]
          exact le_min (le_max_right _ _) (by norm_num)
        · simp only [calculate_fill_ratio, hq, Bool.false_eq_true, if_false]
          exact min_le_right _ _
  exact ⟨(hb p).1, (hb p).2, rfl, by simp [calculate_fill_ratio, hpg]⟩

theorem c9_witness :
    0 ≤ calculate_fill_ratio none ∧ calculate_fill_ratio none ≤ 1 ∧
    calculate_fill_ratio none = 9/10 ∧
    calculate_fill_ratio (some ⟨792, []⟩) = 1/2 :=
  c9_analyzer_total_bounded none ⟨792, []⟩ rfl

/-- C10: when the measured content top lies at or below the usable bottom
of the page — `usable_height = page_height - 36 - content_top` is zero or
negative — the analyzer does not divide by `usable_height` and returns
exactly 0.9 (the guarded branch of app.py 236, which the final clamp leaves
unchanged). -/
theorem c10_usable_height_guard (pg : Page) (hne : pg.blocks ≠ [])
    (h : pg.page_height - 36 - contentTop pg ≤ 0) :
    calculate_fill_ratio (some pg) = 9/10 := by
  have hq : pg.blocks.isEmpty = false := by
    cases hb : pg.blocks with
    | nil => exact absurd hb hne
    | cons a l => simp [hb]
  simp only [calculate_fill_ratio, hq, Bool.false_eq_true, if_false]
  rw [if_neg (not_lt.mpr h)]
  rw [max_eq_left (by norm_num : (0 : ℚ) ≤ 9/10),
    min_eq_left (by norm_num : (9/10 : ℚ) ≤ 1)]

theorem c10_witness :
    (⟨100, [⟨90, 95⟩]⟩ : Page).blocks ≠ [] ∧
    (⟨100, [⟨90, 95⟩]⟩ : Page).page_height - 36 -
      contentTop ⟨100, [⟨90, 95⟩]⟩ ≤ 0 ∧
    calculate_fill_ratio (some ⟨100, [⟨90, 95⟩]⟩) = 9/10 := by
  have h : (⟨100, [⟨90, 95⟩]⟩ : Page).page_height - 36 -
      contentTop ⟨100, [⟨90, 95⟩]⟩ ≤ 0 := by
    norm_num [contentTop, min_def]
  exact ⟨by simp, h, c10_usable_height_guard _ (by simp) h⟩
